import Mathlib

/-!
Shallow embedding of the TRON light-cycle simulation core of the
portfolio-os repository (`src/App.jsx`, component `Tron2DApp`).

The occupancy grid (`Uint8Array` of `cols*rows` cells, 0 = empty,
1 = human trail, 2 = computer trail) is modelled as a `List ℕ` indexed by
`y*cols + x`; coordinates are integers; the real-number scores of the AI
heuristic (JS doubles) are modelled as exact rationals; the
`requestAnimationFrame` loop's accumulator draining is modelled with an
explicit iteration count equal to the number of whole step intervals
contained in the accumulator.
-/

namespace Tron

/-- One light-cycle agent: integer position and heading vector,
mirroring the source's `{x, y, dir:[dx,dy]}` records. -/
structure Agent where
  x : ℤ
  y : ℤ
  dir : ℤ × ℤ
deriving DecidableEq

/-- Match outcome, mirroring the source's `winner` state:
`null` / `"You win!"` / `"Computer wins"` / `"Draw"`. -/
inductive Outcome where
  | unset
  | p1Wins
  | p2Wins
  | draw
deriving DecidableEq

/-- Whole match state owned by the Tron component: grid dimensions,
occupancy world, the two agents, the `running` flag, the `winner`
outcome and the step-clock accumulator (`accum.current`). -/
structure GameState where
  cols : ℤ
  rows : ℤ
  world : List ℕ
  p1 : Agent
  p2 : Agent
  running : Bool
  winner : Outcome
  accum : ℚ
deriving DecidableEq

/-- Source: `const idx = (x,y)=> y*cols + x` (array index of a cell). -/
def gidx (cols : ℤ) (c : ℤ × ℤ) : ℕ :=
  (c.2 * cols + c.1).toNat

/-- Source: `const inb = (x,y)=> x>=0 && x<cols && y>=0 && y<rows`. -/
def inb (cols rows x y : ℤ) : Prop :=
  0 ≤ x ∧ x < cols ∧ 0 ≤ y ∧ y < rows

instance (cols rows x y : ℤ) : Decidable (inb cols rows x y) := by
  unfold inb; infer_instance

/-- Source: `const isRev = (a,b)=> a[0]===-b[0] && a[1]===-b[1]`. -/
def isRev (a b : ℤ × ℤ) : Prop :=
  a.1 = -b.1 ∧ a.2 = -b.2

instance (a b : ℤ × ℤ) : Decidable (isRev a b) := by
  unfold isRev; infer_instance

/-- Candidate next cell of an agent: current position plus heading vector. -/
def cand (a : Agent) : ℤ × ℤ :=
  (a.x + a.dir.1, a.y + a.dir.2)

/-- The step's collision test for a candidate cell `c`:
`!inb(n.x,n.y) || world[idx(n.x,n.y)] !== 0`. -/
def collidesAt (g : GameState) (c : ℤ × ℤ) : Prop :=
  ¬ inb g.cols g.rows c.1 c.2 ∨ g.world.getD (gidx g.cols c) 0 ≠ 0

instance (g : GameState) (c : ℤ × ℤ) : Decidable (collidesAt g c) := by
  unfold collidesAt; infer_instance

/-! ### AI decision module (`aiChoose` / `floodScore`) -/

/-- One `push(x,y)` of the source's flood fill: skip when out of bounds,
already seen, or occupied (the start cell is exempt from the occupancy
test); otherwise mark seen and append to the queue. -/
def floodPush (world : List ℕ) (C R sx sy : ℤ)
    (st : List Bool × List (ℤ × ℤ)) (x y : ℤ) : List Bool × List (ℤ × ℤ) :=
  if x < 0 ∨ C ≤ x ∨ y < 0 ∨ R ≤ y then st
  else
    let k := (y * C + x).toNat
    if st.1.getD k false then st
    else if world.getD k 0 ≠ 0 ∧ ¬ (x = sx ∧ y = sy) then st
    else (st.1.set k true, st.2 ++ [(x, y)])

/-- The source's BFS loop
`while(qs<qe && count<LIMIT){ pop; count++; push(4 neighbours) }`,
with an explicit fuel; the loop runs at most `LIMIT` iterations because
`count` increases on every iteration, so fuel `LIMIT` is exact. -/
def floodGo (world : List ℕ) (C R sx sy : ℤ) (LIMIT : ℕ) :
    ℕ → List Bool × List (ℤ × ℤ) → ℕ → ℕ
  | 0, _, count => count
  | fuel + 1, st, count =>
    match st.2 with
    | [] => count
    | (x, y) :: rest =>
      if count < LIMIT then
        let st1 := floodPush world C R sx sy (st.1, rest) (x + 1) y
        let st2 := floodPush world C R sx sy st1 (x - 1) y
        let st3 := floodPush world C R sx sy st2 x (y + 1)
        let st4 := floodPush world C R sx sy st3 x (y - 1)
        floodGo world C R sx sy LIMIT fuel st4 (count + 1)
      else count

/-- Number of cells visited (popped and counted) by the bounded flood
fill started at `(sx, sy)`: `LIMIT = Math.min(N, 600)` with `N = C*R`. -/
def floodVisits (sx sy : ℤ) (world : List ℕ) (C R : ℤ) : ℕ :=
  let N := (C * R).toNat
  let LIMIT := min N 600
  let st0 := floodPush world C R sx sy (List.replicate N false, []) sx sy
  floodGo world C R sx sy LIMIT LIMIT st0 0

/-- Source `floodScore`: visited-cell count scaled by the centre bias
`1/(1 + d*0.2)` where `d` is the Manhattan distance of the start cell
from the grid centre `(C/2, R/2)`. -/
def floodScore (sx sy : ℤ) (world : List ℕ) (C R : ℤ) : ℚ :=
  let cx : ℚ := (C : ℚ) / 2
  let cy : ℚ := (R : ℚ) / 2
  let d : ℚ := |(sx : ℚ) - cx| + |(sy : ℚ) - cy|
  (floodVisits sx sy world C R : ℚ) * (1 / (1 + d * (1 / 5)))

/-- The flood score as an explicit integer fraction `(num, den)` with a
positive denominator: `count * 1/(1 + d*0.2) = 10*count / (10 + 2d)`
where `2d = |2sx - C| + |2sy - R|`.  This exact-fraction form lets the
score comparisons below compute by integer cross-multiplication. -/
def floodScoreFrac (sx sy : ℤ) (world : List ℕ) (C R : ℤ) : ℤ × ℤ :=
  (10 * (floodVisits sx sy world C R : ℤ), 10 + (|2 * sx - C| + |2 * sy - R|))

/-- Rational value denoted by an integer fraction. -/
def scoreVal (s : ℤ × ℤ) : ℚ := (s.1 : ℚ) / (s.2 : ℚ)

/-- Right-relative turn of the source's option list: `[cur[1], -cur[0]]`. -/
def turnR (d : ℤ × ℤ) : ℤ × ℤ := (d.2, -d.1)

/-- Left-relative turn of the source's option list: `[-cur[1], cur[0]]`. -/
def turnL (d : ℤ × ℤ) : ℤ × ℤ := (-d.2, d.1)

/-- Candidate headings considered by the AI, in source order:
straight, right-relative, left-relative. -/
def aiOpts (cur : ℤ × ℤ) : List (ℤ × ℤ) := [cur, turnR cur, turnL cur]

/-- A candidate heading is viable when its resulting cell is in bounds
and unoccupied (the guard of the AI's scoring loop). -/
def validCand (g : GameState) (d : ℤ × ℤ) : Prop :=
  inb g.cols g.rows (g.p2.x + d.1) (g.p2.y + d.2) ∧
    g.world.getD (gidx g.cols (g.p2.x + d.1, g.p2.y + d.2)) 0 = 0

instance (g : GameState) (d : ℤ × ℤ) : Decidable (validCand g d) := by
  unfold validCand; infer_instance

/-- Adjusted score of a viable candidate: flood-fill score of the
resulting cell, times `1.05` when the candidate continues straight. -/
def adjScore (g : GameState) (d : ℤ × ℤ) : ℚ :=
  floodScore (g.p2.x + d.1) (g.p2.y + d.2) g.world g.cols g.rows *
    (if d = g.p2.dir then 21 / 20 else 1)

/-- The adjusted score as an integer fraction with positive
denominator (`* 1.05` is `* 21/20`). -/
def adjScoreFrac (g : GameState) (d : ℤ × ℤ) : ℤ × ℤ :=
  let f := floodScoreFrac (g.p2.x + d.1) (g.p2.y + d.2) g.world g.cols g.rows
  if d = g.p2.dir then (21 * f.1, 20 * f.2) else f

/-- `s > bestScore` of the source, with `none` playing `-Infinity`;
fractions with positive denominators compare by cross-multiplication. -/
def betterScore : Option (ℤ × ℤ) → ℤ × ℤ → Bool
  | none, _ => true
  | some b, s => decide (b.1 * s.2 < s.1 * b.2)

/-- The AI's scoring loop over the candidate list, accumulating the
best candidate and its score (`none` = `-Infinity`). -/
def aiFold (g : GameState) : List (ℤ × ℤ) → (ℤ × ℤ) × Option (ℤ × ℤ) → (ℤ × ℤ) × Option (ℤ × ℤ)
  | [], acc => acc
  | d :: rest, acc =>
    if validCand g d then
      let s := adjScoreFrac g d
      if betterScore acc.2 s then aiFold g rest (d, some s)
      else aiFold g rest acc
    else aiFold g rest acc

/-- The emergency scan: first of the four absolute directions that is
not the reverse of the current heading and whose cell is open. -/
def emergencyScan (g : GameState) : Option (ℤ × ℤ) :=
  [((1 : ℤ), (0 : ℤ)), (-1, 0), (0, 1), (0, -1)].find?
    (fun d => !(decide (isRev g.p2.dir d)) && decide (validCand g d))

/-- Source `aiChoose`: pick the best-scoring candidate among straight /
right / left; if every candidate is blocked (`bestScore === -Infinity`),
fall back to the emergency scan, and failing that keep the current
heading. -/
def aiChoose (g : GameState) : ℤ × ℤ :=
  let cur := g.p2.dir
  match aiFold g (aiOpts cur) (cur, none) with
  | (best, some _) => best
  | (best, none) =>
    match emergencyScan g with
    | some d => d
    | none => best

/-- The AI's only mutation: `p2.dir = best` at the end of `aiChoose`. -/
def aiApply (g : GameState) : GameState :=
  { g with p2 := { g.p2 with dir := aiChoose g } }

/-! ### Simulation step -/

/-- The collision/commit part of `stepOnce` (everything after the
`aiChoose()` call): compute both candidate cells, test each for
collision, apply the head-on rule, and either set the outcome (forcing
`running` false, committing nothing) or commit both moves. -/
def stepCore (g : GameState) : GameState :=
  let n1 := cand g.p1
  let n2 := cand g.p2
  if ¬ collidesAt g n1 ∧ ¬ collidesAt g n2 ∧ n1 = n2 then
    { g with running := false, winner := .draw }
  else if collidesAt g n1 ∨ collidesAt g n2 then
    { g with running := false,
             winner := if collidesAt g n1 ∧ collidesAt g n2 then .draw
                       else if collidesAt g n2 then .p1Wins
                       else .p2Wins }
  else
    { g with p1 := { g.p1 with x := n1.1, y := n1.2 },
             p2 := { g.p2 with x := n2.1, y := n2.2 },
             world := (g.world.set (gidx g.cols n1) 1).set (gidx g.cols n2) 2 }

/-- Source `stepOnce`: run the AI (which updates `p2.dir`), then the
collision/commit logic. -/
def stepOnce (g : GameState) : GameState :=
  stepCore (aiApply g)

/-- `n` consecutive `stepOnce` calls. -/
def stepN : ℕ → GameState → GameState
  | 0, g => g
  | n + 1, g => stepN n (stepOnce g)

/-! ### Loop driver, input and lifecycle -/

/-- Source `lerp`. -/
def lerp (a b t : ℚ) : ℚ := a + (b - a) * t

/-- Step interval from the speed slider:
`lerp(0.24, 0.06, (speed-1)/11)` seconds. -/
def stepTime (speed : ℤ) : ℚ :=
  lerp (6 / 25) (3 / 50) (((speed : ℚ) - 1) / 11)

/-- The catch-up drain `while (accum >= stepTime) { accum -= stepTime;
stepOnce(); }`, with an explicit iteration count (the loop body does not
re-test `running`/`winner`, exactly as in the source). -/
def drainD : ℕ → ℚ → GameState → GameState
  | 0, _, g => g
  | fuel + 1, st, g =>
    if st ≤ g.accum then drainD fuel st (stepOnce { g with accum := g.accum - st })
    else g

/-- Arrow keys handled by `onKey`. -/
inductive ArrowKey where
  | up
  | down
  | left
  | right
deriving DecidableEq

/-- Heading vector written by each arrow key. -/
def arrowDir : ArrowKey → ℤ × ℤ
  | .up => (0, -1)
  | .down => (0, 1)
  | .left => (-1, 0)
  | .right => (1, 0)

/-- Initial match state for a `cols × rows` arena (the arena-build
effect and `reset` construct the same layout): zeroed world, human at
`(2, mid)` heading right, computer at `(cols-3, mid)` heading left,
both start cells pre-marked, not running, no outcome, zero accumulator. -/
def initState (cols rows : ℤ) : GameState :=
  let mid := rows / 2
  let w0 := List.replicate (cols * rows).toNat 0
  let w1 := w0.set (gidx cols (2, mid)) 1
  let w2 := w1.set (gidx cols (cols - 3, mid)) 2
  { cols := cols, rows := rows, world := w2,
    p1 := { x := 2, y := mid, dir := (1, 0) },
    p2 := { x := cols - 3, y := mid, dir := (-1, 0) },
    running := false, winner := .unset, accum := 0 }

/-- User-visible events of the component: a render frame (with elapsed
time and the current speed slider value), an arrow key, the space key
(`setRunning(r=>!r)`), the Start/Pause button
(`setWinner(null); setRunning(r=>!r)`), and the Reset button / Enter
key (`reset()`). -/
inductive Event where
  | frame (dt : ℚ) (speed : ℤ)
  | arrow (a : ArrowKey)
  | space
  | startPause
  | reset
deriving DecidableEq

/-- Effect of one event on the match state.  A frame accumulates `dt`
and drains whole step intervals only while `running` is true and no
outcome is set; an arrow key writes the human heading unless it is the
exact reverse of the current one; space toggles `running`; the
Start/Pause button clears the outcome and toggles `running`; reset
rebuilds the initial layout.  (The speed slider keeps `1 ≤ speed ≤ 12`,
so the step interval is positive.) -/
def applyEvent (e : Event) (g : GameState) : GameState :=
  match e with
  | .frame dt speed =>
    if g.running = true ∧ g.winner = Outcome.unset then
      let st := stepTime speed
      let acc := g.accum + dt
      let fuel := if 0 < st then (acc / st).floor.toNat else 0
      drainD fuel st { g with accum := acc }
    else g
  | .arrow a =>
    let d := arrowDir a
    if isRev g.p1.dir d then g else { g with p1 := { g.p1 with dir := d } }
  | .space => { g with running := !g.running }
  | .startPause => { g with winner := .unset, running := !g.running }
  | .reset => initState g.cols g.rows

/-- A sequence of arrow-key events applied in order (inputs arriving
between two simulation steps). -/
def applyArrows : List ArrowKey → GameState → GameState
  | [], g => g
  | a :: rest, g => applyArrows rest (applyEvent (.arrow a) g)

/-- The three arena presets of the component. -/
inductive Arena where
  | S
  | M
  | L
deriving DecidableEq

/-- Preset columns: S = 28, M = 36, L = 48. -/
def arenaCols : Arena → ℤ
  | .S => 28
  | .M => 36
  | .L => 48

/-- Preset rows: S = 20, M = 26, L = 32. -/
def arenaRows : Arena → ℤ
  | .S => 20
  | .M => 26
  | .L => 32

/-- Match states reachable from an arena's initial layout through any
sequence of user events and render frames. -/
inductive Reachable : GameState → Prop
  | init (a : Arena) : Reachable (initState (arenaCols a) (arenaRows a))
  | ev (e : Event) {g : GameState} : Reachable g → Reachable (applyEvent e g)

/-! ### Concrete match states and auxiliary predicates used by the theorems -/

/-- A 5×1 corridor with the two agents one cell apart, heading at each
other; both trails marked, the middle cell free. -/
def headOnRow : GameState :=
  { cols := 5, rows := 1,
    world := ((List.replicate 5 0).set 1 1).set 3 2,
    p1 := { x := 1, y := 0, dir := (1, 0) },
    p2 := { x := 3, y := 0, dir := (-1, 0) },
    running := true, winner := .unset, accum := 0 }

/-- A 1×5 vertical corridor with the agents heading at each other. -/
def headOnCol : GameState :=
  { cols := 1, rows := 5,
    world := ((List.replicate 5 0).set 1 1).set 3 2,
    p1 := { x := 0, y := 1, dir := (0, 1) },
    p2 := { x := 0, y := 3, dir := (0, -1) },
    running := true, winner := .unset, accum := 0 }

/-- A 4×3 arena where the human is about to leave the grid on the left
while the computer's straight candidate is blocked by a trail cell, so
the AI turns. -/
def wallCrash : GameState :=
  { cols := 4, rows := 3,
    world := (((List.replicate 12 0).set 4 1).set 6 2).set 5 1,
    p1 := { x := 0, y := 1, dir := (-1, 0) },
    p2 := { x := 2, y := 1, dir := (-1, 0) },
    running := true, winner := .unset, accum := 0 }

/-- A 3×3 arena in which both agents can commit at least two
consecutive steps. -/
def openSteps : GameState :=
  { cols := 3, rows := 3,
    world := ((List.replicate 9 0).set 0 1).set 6 2,
    p1 := { x := 0, y := 0, dir := (1, 0) },
    p2 := { x := 0, y := 2, dir := (1, 0) },
    running := true, winner := .unset, accum := 0 }

/-- A terminal state in which the computer has already won. -/
def termP2 : GameState :=
  { cols := 4, rows := 3,
    world := (((List.replicate 12 0).set 4 1).set 6 2).set 5 1,
    p1 := { x := 0, y := 1, dir := (-1, 0) },
    p2 := { x := 2, y := 1, dir := (0, 1) },
    running := false, winner := .p2Wins, accum := 0 }

/-- A terminal state in which the match ended in a draw. -/
def termDraw : GameState :=
  { cols := 5, rows := 1,
    world := ((List.replicate 5 0).set 1 1).set 3 2,
    p1 := { x := 1, y := 0, dir := (1, 0) },
    p2 := { x := 3, y := 0, dir := (-1, 0) },
    running := false, winner := .draw, accum := 0 }

/-- The inductive invariant: sane grid dimensions and both agents in
bounds. -/
def Inv (g : GameState) : Prop :=
  3 ≤ g.cols ∧ 1 ≤ g.rows ∧
  inb g.cols g.rows g.p1.x g.p1.y ∧ inb g.cols g.rows g.p2.x g.p2.y

/-- The four cardinal headings. -/
def cardinals : List (ℤ × ℤ) := [(1, 0), (-1, 0), (0, 1), (0, -1)]

/-! ### Helper lemmas about the step function -/

theorem aiApply_p1 (g : GameState) : (aiApply g).p1 = g.p1 := rfl

theorem aiApply_world (g : GameState) : (aiApply g).world = g.world := rfl

theorem aiApply_winner (g : GameState) : (aiApply g).winner = g.winner := rfl

theorem aiApply_p2x (g : GameState) : (aiApply g).p2.x = g.p2.x := rfl

theorem aiApply_p2y (g : GameState) : (aiApply g).p2.y = g.p2.y := rfl

theorem stepOnce_def (g : GameState) : stepOnce g = stepCore (aiApply g) := rfl

theorem stepCore_headOn {g : GameState}
    (h1 : ¬ collidesAt g (cand g.p1)) (h2 : ¬ collidesAt g (cand g.p2))
    (he : cand g.p1 = cand g.p2) :
    stepCore g = { g with running := false, winner := .draw } := by
  simp only [stepCore]
  rw [if_pos ⟨h1, h2, he⟩]

theorem stepCore_collision {g : GameState}
    (h : collidesAt g (cand g.p1) ∨ collidesAt g (cand g.p2)) :
    stepCore g =
      { g with
        running := false,
        winner := if collidesAt g (cand g.p1) ∧ collidesAt g (cand g.p2) then .draw
                  else if collidesAt g (cand g.p2) then .p1Wins
                  else .p2Wins } := by
  simp only [stepCore]
  have hno : ¬ (¬ collidesAt g (cand g.p1) ∧ ¬ collidesAt g (cand g.p2) ∧
      cand g.p1 = cand g.p2) := by
    rintro ⟨a, b, -⟩
    rcases h with h | h
    · exact a h
    · exact b h
  rw [if_neg hno, if_pos h]

theorem stepCore_commit {g : GameState}
    (h1 : ¬ collidesAt g (cand g.p1)) (h2 : ¬ collidesAt g (cand g.p2))
    (hne : cand g.p1 ≠ cand g.p2) :
    stepCore g =
      { g with
        p1 := { g.p1 with x := (cand g.p1).1, y := (cand g.p1).2 },
        p2 := { g.p2 with x := (cand g.p2).1, y := (cand g.p2).2 },
        world := (g.world.set (gidx g.cols (cand g.p1)) 1).set
          (gidx g.cols (cand g.p2)) 2 } := by
  simp only [stepCore]
  rw [if_neg (by rintro ⟨-, -, he⟩; exact hne he),
      if_neg (by rintro (h | h); exacts [h1 h, h2 h])]

theorem not_collidesAt_iff {g : GameState} {c : ℤ × ℤ} :
    ¬ collidesAt g c ↔
      inb g.cols g.rows c.1 c.2 ∧ g.world.getD (gidx g.cols c) 0 = 0 := by
  unfold collidesAt
  push_neg
  tauto

theorem getD_set_ne_nat {l : List ℕ} {i k : ℕ} {a : ℕ} (h : i ≠ k) :
    (l.set i a).getD k 0 = l.getD k 0 := by
  simp [List.getD_eq_getElem?_getD, List.getElem?_set_ne h]

theorem stepCore_world_mono {g : GameState} (k : ℕ)
    (h : g.world.getD k 0 ≠ 0) :
    (stepCore g).world.getD k 0 = g.world.getD k 0 := by
  by_cases h1 : collidesAt g (cand g.p1)
  · rw [stepCore_collision (Or.inl h1)]
  · by_cases h2 : collidesAt g (cand g.p2)
    · rw [stepCore_collision (Or.inr h2)]
    · by_cases he : cand g.p1 = cand g.p2
      · rw [stepCore_headOn h1 h2 he]
      · rw [stepCore_commit h1 h2 he]
        have hz1 := (not_collidesAt_iff.mp h1).2
        have hz2 := (not_collidesAt_iff.mp h2).2
        have hk1 : gidx g.cols (cand g.p1) ≠ k := fun e => h (e ▸ hz1)
        have hk2 : gidx g.cols (cand g.p2) ≠ k := fun e => h (e ▸ hz2)
        show ((g.world.set _ 1).set _ 2).getD k 0 = _
        rw [getD_set_ne_nat hk2, getD_set_ne_nat hk1]

theorem stepOnce_world_mono {g : GameState} (k : ℕ)
    (h : g.world.getD k 0 ≠ 0) :
    (stepOnce g).world.getD k 0 = g.world.getD k 0 :=
  stepCore_world_mono (g := aiApply g) k h





/-! ### C1 -/

/-- C1 (amended): for a step from a state with outcome Unset, each
agent's candidate cell (position plus heading, the computer's heading
being the one just chosen by the AI) collides iff it is out of bounds
or its grid cell is occupied (`collidesAt`); both colliding gives Draw,
only the computer colliding gives `p1Wins` (human wins), only the human
colliding gives `p2Wins` (computer wins), and in all of these no move
is committed; when neither collides and the candidates differ, no
outcome is set and both moves are committed.  Amendment: when neither
candidate collides but the two candidate cells coincide (head-on), the
outcome is Draw and the moves are not committed — contrary to the
claim's final clause. -/
theorem c1_step_outcome (g : GameState) (hw : g.winner = Outcome.unset) :
    (collidesAt (aiApply g) (cand (aiApply g).p1) →
     collidesAt (aiApply g) (cand (aiApply g).p2) →
      (stepOnce g).winner = Outcome.draw ∧ (stepOnce g).world = g.world ∧
      (stepOnce g).p1.x = g.p1.x ∧ (stepOnce g).p1.y = g.p1.y ∧
      (stepOnce g).p2.x = g.p2.x ∧ (stepOnce g).p2.y = g.p2.y) ∧
    (¬ collidesAt (aiApply g) (cand (aiApply g).p1) →
     collidesAt (aiApply g) (cand (aiApply g).p2) →
      (stepOnce g).winner = Outcome.p1Wins ∧ (stepOnce g).world = g.world ∧
      (stepOnce g).p1.x = g.p1.x ∧ (stepOnce g).p1.y = g.p1.y ∧
      (stepOnce g).p2.x = g.p2.x ∧ (stepOnce g).p2.y = g.p2.y) ∧
    (collidesAt (aiApply g) (cand (aiApply g).p1) →
     ¬ collidesAt (aiApply g) (cand (aiApply g).p2) →
      (stepOnce g).winner = Outcome.p2Wins ∧ (stepOnce g).world = g.world ∧
      (stepOnce g).p1.x = g.p1.x ∧ (stepOnce g).p1.y = g.p1.y ∧
      (stepOnce g).p2.x = g.p2.x ∧ (stepOnce g).p2.y = g.p2.y) ∧
    (¬ collidesAt (aiApply g) (cand (aiApply g).p1) →
     ¬ collidesAt (aiApply g) (cand (aiApply g).p2) →
     cand (aiApply g).p1 ≠ cand (aiApply g).p2 →
      (stepOnce g).winner = Outcome.unset ∧
      (stepOnce g).world = (g.world.set (gidx g.cols (cand (aiApply g).p1)) 1).set
        (gidx g.cols (cand (aiApply g).p2)) 2 ∧
      (stepOnce g).p1.x = (cand (aiApply g).p1).1 ∧
      (stepOnce g).p1.y = (cand (aiApply g).p1).2 ∧
      (stepOnce g).p2.x = (cand (aiApply g).p2).1 ∧
      (stepOnce g).p2.y = (cand (aiApply g).p2).2) ∧
    (¬ collidesAt (aiApply g) (cand (aiApply g).p1) →
     ¬ collidesAt (aiApply g) (cand (aiApply g).p2) →
     cand (aiApply g).p1 = cand (aiApply g).p2 →
      (stepOnce g).winner = Outcome.draw ∧ (stepOnce g).world = g.world ∧
      (stepOnce g).p1.x = g.p1.x ∧ (stepOnce g).p1.y = g.p1.y ∧
      (stepOnce g).p2.x = g.p2.x ∧ (stepOnce g).p2.y = g.p2.y) := by
  refine ⟨?_, ?_, ?_, ?_, ?_⟩
  · intro h1 h2
    rw [stepOnce_def, stepCore_collision (Or.inl h1), if_pos ⟨h1, h2⟩]
    exact ⟨rfl, rfl, rfl, rfl, rfl, rfl⟩
  · intro h1 h2
    rw [stepOnce_def, stepCore_collision (Or.inr h2),
        if_neg (fun hb => h1 hb.1), if_pos h2]
    exact ⟨rfl, rfl, rfl, rfl, rfl, rfl⟩
  · intro h1 h2
    rw [stepOnce_def, stepCore_collision (Or.inl h1),
        if_neg (fun hb => h2 hb.2), if_neg h2]
    exact ⟨rfl, rfl, rfl, rfl, rfl, rfl⟩
  · intro h1 h2 hne
    rw [stepOnce_def, stepCore_commit h1 h2 hne]
    exact ⟨hw, rfl, rfl, rfl, rfl, rfl⟩
  · intro h1 h2 he
    rw [stepOnce_def, stepCore_headOn h1 h2 he]
    exact ⟨rfl, rfl, rfl, rfl, rfl, rfl⟩

/-- C1 counterexample: in the 1×5 head-on state neither agent's
candidate cell is out of bounds or occupied, yet the step sets the
outcome (Draw) and commits neither move — refuting the claim's clause
that when neither candidate collides no outcome is set and both moves
are committed. -/
theorem c1_headOn_refutes :
    ¬ collidesAt (aiApply headOnCol) (cand (aiApply headOnCol).p1) ∧
    ¬ collidesAt (aiApply headOnCol) (cand (aiApply headOnCol).p2) ∧
    (stepOnce headOnCol).winner = Outcome.draw ∧
    (stepOnce headOnCol).p1.y = headOnCol.p1.y ∧
    (stepOnce headOnCol).world = headOnCol.world := by
  decide

/-- C1 witness: the amended characterization applied to the 4×3 crash
state, whose human candidate is out of bounds while the computer's
chosen candidate is free, yields the computer win with no commit. -/
theorem c1_step_outcome_witness :
    (stepOnce wallCrash).winner = Outcome.p2Wins ∧
    (stepOnce wallCrash).world = wallCrash.world := by
  have h := (c1_step_outcome wallCrash (by decide)).2.2.1 (by decide) (by decide)
  exact ⟨h.1, h.2.1⟩

/-! ### C2 -/

/-- C2: when both independently computed candidate cells (the
computer's using the heading just chosen by the AI) are in bounds and
unoccupied but equal, the step's outcome is Draw, never `p1Wins` or
`p2Wins`. -/
theorem c2_head_on_draw (g : GameState)
    (h1 : inb g.cols g.rows (cand (aiApply g).p1).1 (cand (aiApply g).p1).2)
    (hz1 : g.world.getD (gidx g.cols (cand (aiApply g).p1)) 0 = 0)
    (h2 : inb g.cols g.rows (cand (aiApply g).p2).1 (cand (aiApply g).p2).2)
    (hz2 : g.world.getD (gidx g.cols (cand (aiApply g).p2)) 0 = 0)
    (he : cand (aiApply g).p1 = cand (aiApply g).p2) :
    (stepOnce g).winner = Outcome.draw ∧
    (stepOnce g).winner ≠ Outcome.p1Wins ∧
    (stepOnce g).winner ≠ Outcome.p2Wins := by
  have hc1 : ¬ collidesAt (aiApply g) (cand (aiApply g).p1) :=
    not_collidesAt_iff.mpr ⟨h1, hz1⟩
  have hc2 : ¬ collidesAt (aiApply g) (cand (aiApply g).p2) :=
    not_collidesAt_iff.mpr ⟨h2, hz2⟩
  rw [stepOnce_def, stepCore_headOn hc1 hc2 he]
  exact ⟨rfl, fun h => Outcome.noConfusion h, fun h => Outcome.noConfusion h⟩

/-- C2 witness: the head-on rule at the concrete 5×1 corridor state. -/
theorem c2_head_on_draw_witness : (stepOnce headOnRow).winner = Outcome.draw :=
  (c2_head_on_draw headOnRow (by decide) (by decide) (by decide) (by decide)
    (by decide)).1

/-! ### C10 -/

/-- C10 (amended): on the step that sets an outcome, the grid, both
positions and the human's heading are left exactly as before the step
and `running` is forced false; but besides the running flag and the
outcome, the computer's heading may also change, because `aiChoose`
already wrote `p2.dir` before collision detection. -/
theorem c10_no_commit_on_outcome (g : GameState)
    (hw : g.winner = Outcome.unset) (hc : (stepOnce g).winner ≠ Outcome.unset) :
    (stepOnce g).world = g.world ∧
    (stepOnce g).p1.x = g.p1.x ∧ (stepOnce g).p1.y = g.p1.y ∧
    (stepOnce g).p2.x = g.p2.x ∧ (stepOnce g).p2.y = g.p2.y ∧
    (stepOnce g).p1.dir = g.p1.dir ∧
    (stepOnce g).running = false ∧
    (stepOnce g).p2.dir = aiChoose g := by
  by_cases h1 : collidesAt (aiApply g) (cand (aiApply g).p1)
  · rw [stepOnce_def, stepCore_collision (Or.inl h1)]
    exact ⟨rfl, rfl, rfl, rfl, rfl, rfl, rfl, rfl⟩
  · by_cases h2 : collidesAt (aiApply g) (cand (aiApply g).p2)
    · rw [stepOnce_def, stepCore_collision (Or.inr h2)]
      exact ⟨rfl, rfl, rfl, rfl, rfl, rfl, rfl, rfl⟩
    · by_cases he : cand (aiApply g).p1 = cand (aiApply g).p2
      · rw [stepOnce_def, stepCore_headOn h1 h2 he]
        exact ⟨rfl, rfl, rfl, rfl, rfl, rfl, rfl, rfl⟩
      · exfalso
        apply hc
        rw [stepOnce_def, stepCore_commit h1 h2 he]
        exact hw

/-- C10 counterexample: in the 4×3 crash state the step sets an
outcome, yet the computer's heading changes during that same step —
refuting the claim that only the running flag and the outcome change. -/
theorem c10_heading_changes :
    (stepOnce wallCrash).winner ≠ Outcome.unset ∧
    (stepOnce wallCrash).p2.dir ≠ wallCrash.p2.dir := by
  decide

/-- C10 witness: the amended no-commit property at the 4×3 crash
state. -/
theorem c10_no_commit_witness :
    (stepOnce wallCrash).world = wallCrash.world ∧
    (stepOnce wallCrash).running = false := by
  have h := c10_no_commit_on_outcome wallCrash (by decide) (by decide)
  exact ⟨h.1, h.2.2.2.2.2.2.1⟩

/-! ### C3 and C5: terminal-state behaviour and the Start/Pause button -/



theorem stepOnce_terminal_running {g : GameState}
    (hw : g.winner = Outcome.unset) (hc : (stepOnce g).winner ≠ Outcome.unset) :
    (stepOnce g).running = false := by
  by_cases h1 : collidesAt (aiApply g) (cand (aiApply g).p1)
  · rw [stepOnce_def, stepCore_collision (Or.inl h1)]
  · by_cases h2 : collidesAt (aiApply g) (cand (aiApply g).p2)
    · rw [stepOnce_def, stepCore_collision (Or.inr h2)]
    · by_cases he : cand (aiApply g).p1 = cand (aiApply g).p2
      · rw [stepOnce_def, stepCore_headOn h1 h2 he]
      · exfalso
        apply hc
        rw [stepOnce_def, stepCore_commit h1 h2 he]
        exact hw

/-- C3 (amended): the step that sets an outcome forces `running` false,
and from a state with an outcome set, render frames are complete
no-ops (no simulation step is accepted) while arrow keys and the
space toggle leave the grid, both positions and the outcome unchanged;
but the Start/Pause button is an exception: it clears the outcome and
toggles `running`, after which stepping can resume without a reset. -/
theorem c3_terminal_frozen (g : GameState) :
    (g.winner = Outcome.unset → (stepOnce g).winner ≠ Outcome.unset →
      (stepOnce g).running = false) ∧
    (g.winner ≠ Outcome.unset →
      (∀ dt : ℚ, ∀ speed : ℤ, applyEvent (.frame dt speed) g = g) ∧
      (∀ a : ArrowKey,
        (applyEvent (.arrow a) g).world = g.world ∧
        (applyEvent (.arrow a) g).p1.x = g.p1.x ∧
        (applyEvent (.arrow a) g).p1.y = g.p1.y ∧
        (applyEvent (.arrow a) g).p2.x = g.p2.x ∧
        (applyEvent (.arrow a) g).p2.y = g.p2.y ∧
        (applyEvent (.arrow a) g).winner = g.winner) ∧
      ((applyEvent .space g).world = g.world ∧
       (applyEvent .space g).p1.x = g.p1.x ∧
       (applyEvent .space g).p1.y = g.p1.y ∧
       (applyEvent .space g).p2.x = g.p2.x ∧
       (applyEvent .space g).p2.y = g.p2.y ∧
       (applyEvent .space g).winner = g.winner)) := by
  refine ⟨fun hw hc => stepOnce_terminal_running hw hc, fun ht => ⟨?_, ?_, ?_⟩⟩
  · intro dt speed
    show (if g.running = true ∧ g.winner = Outcome.unset then _ else g) = g
    rw [if_neg (fun hb => ht hb.2)]
  · intro a
    by_cases hr : isRev g.p1.dir (arrowDir a)
    · simp [applyEvent, hr]
    · simp [applyEvent, hr]
  · exact ⟨rfl, rfl, rfl, rfl, rfl, rfl⟩

/-- C3 counterexample: from a terminal (computer-won) state, pressing
the Start/Pause button — a user action other than reset — changes the
outcome back to Unset, refuting the claim that the outcome cannot
change before the next reset. -/
theorem c3_button_unfreezes :
    termP2.winner ≠ Outcome.unset ∧
    (applyEvent .startPause termP2).winner = Outcome.unset ∧
    (applyEvent .startPause termP2).winner ≠ termP2.winner := by
  decide

/-- C3 witness: at the concrete terminal state, a frame is a no-op and
the space toggle leaves the outcome unchanged. -/
theorem c3_terminal_frozen_witness :
    applyEvent (.frame 1 8) termP2 = termP2 ∧
    (applyEvent .space termP2).winner = termP2.winner := by
  have h := (c3_terminal_frozen termP2).2 (by decide)
  exact ⟨h.1 1 8, h.2.2.2.2.2.2.2⟩

/-- C5 (amended): the Start/Pause button flips `running` and clears the
outcome (sets it to Unset); the grid, both agents (positions and
headings) and the step-clock accumulator are unchanged.  The claim's
assertion that the outcome is unchanged fails whenever an outcome was
set. -/
theorem c5_toggle_effect (g : GameState) :
    (applyEvent .startPause g).world = g.world ∧
    (applyEvent .startPause g).p1 = g.p1 ∧
    (applyEvent .startPause g).p2 = g.p2 ∧
    (applyEvent .startPause g).accum = g.accum ∧
    (applyEvent .startPause g).running = !g.running ∧
    (applyEvent .startPause g).winner = Outcome.unset :=
  ⟨rfl, rfl, rfl, rfl, rfl, rfl⟩

/-- C5 counterexample: from a drawn terminal state the Start/Pause
button changes the outcome (to Unset), refuting the claim that the
toggle leaves the outcome unchanged. -/
theorem c5_toggle_clears_outcome :
    (applyEvent .startPause termDraw).winner ≠ termDraw.winner := by
  decide

/-! ### C9: occupancy monotonicity -/

/-- C9: within a match, once a grid cell is occupied (non-Empty), any
number of further simulation steps leaves that cell's value — hence
both its occupancy and its owner — unchanged. -/
theorem c9_occupancy_monotone (g : GameState) (k : ℕ)
    (h : g.world.getD k 0 ≠ 0) (n : ℕ) :
    (stepN n g).world.getD k 0 = g.world.getD k 0 := by
  induction n generalizing g with
  | zero => rfl
  | succ n ih =>
    have h1 := stepOnce_world_mono (g := g) k h
    have h2 := ih (stepOnce g) (by rw [h1]; exact h)
    show (stepN n (stepOnce g)).world.getD k 0 = _
    rw [h2, h1]

/-- C9 witness: the human's start cell of the 3×3 state stays owned by
agent 1 across two steps. -/
theorem c9_occupancy_monotone_witness :
    (stepN 2 openSteps).world.getD 0 0 = openSteps.world.getD 0 0 :=
  c9_occupancy_monotone openSteps 0 (by decide) 2

/-! ### C4: no committed reversal -/

theorem stepCore_cols (g : GameState) : (stepCore g).cols = g.cols := by
  simp only [stepCore]
  split
  · rfl
  · split
    · rfl
    · rfl

theorem stepOnce_cols (g : GameState) : (stepOnce g).cols = g.cols :=
  stepCore_cols (aiApply g)

theorem stepOnce_commit_of_winner_unset {g : GameState}
    (hc : (stepOnce g).winner = Outcome.unset) :
    ¬ collidesAt (aiApply g) (cand (aiApply g).p1) ∧
    ¬ collidesAt (aiApply g) (cand (aiApply g).p2) ∧
    cand (aiApply g).p1 ≠ cand (aiApply g).p2 := by
  by_cases h1 : collidesAt (aiApply g) (cand (aiApply g).p1)
  · exfalso
    rw [stepOnce_def, stepCore_collision (Or.inl h1)] at hc
    have hc' : (if collidesAt (aiApply g) (cand (aiApply g).p1) ∧
        collidesAt (aiApply g) (cand (aiApply g).p2) then Outcome.draw
        else if collidesAt (aiApply g) (cand (aiApply g).p2) then Outcome.p1Wins
        else Outcome.p2Wins) = Outcome.unset := hc
    split_ifs at hc'
  · by_cases h2 : collidesAt (aiApply g) (cand (aiApply g).p2)
    · exfalso
      rw [stepOnce_def, stepCore_collision (Or.inr h2)] at hc
      have hc' : (if collidesAt (aiApply g) (cand (aiApply g).p1) ∧
          collidesAt (aiApply g) (cand (aiApply g).p2) then Outcome.draw
          else if collidesAt (aiApply g) (cand (aiApply g).p2) then Outcome.p1Wins
          else Outcome.p2Wins) = Outcome.unset := hc
      split_ifs at hc'
    · by_cases he : cand (aiApply g).p1 = cand (aiApply g).p2
      · exfalso
        rw [stepOnce_def, stepCore_headOn h1 h2 he] at hc
        exact Outcome.noConfusion hc
      · exact ⟨h1, h2, he⟩

theorem stepOnce_commit_fields {g : GameState}
    (h1 : ¬ collidesAt (aiApply g) (cand (aiApply g).p1))
    (h2 : ¬ collidesAt (aiApply g) (cand (aiApply g).p2))
    (hne : cand (aiApply g).p1 ≠ cand (aiApply g).p2) :
    (stepOnce g).p1.x = g.p1.x + g.p1.dir.1 ∧
    (stepOnce g).p1.y = g.p1.y + g.p1.dir.2 ∧
    (stepOnce g).p2.x = g.p2.x + (aiApply g).p2.dir.1 ∧
    (stepOnce g).p2.y = g.p2.y + (aiApply g).p2.dir.2 := by
  rw [stepOnce_def, stepCore_commit h1 h2 hne]
  exact ⟨rfl, rfl, rfl, rfl⟩

theorem applyArrows_fields (ds : List ArrowKey) (g : GameState) :
    (applyArrows ds g).world = g.world ∧ (applyArrows ds g).cols = g.cols ∧
    (applyArrows ds g).p1.x = g.p1.x ∧ (applyArrows ds g).p1.y = g.p1.y ∧
    (applyArrows ds g).p2 = g.p2 ∧ (applyArrows ds g).winner = g.winner := by
  induction ds generalizing g with
  | nil => exact ⟨rfl, rfl, rfl, rfl, rfl, rfl⟩
  | cons a rest ih =>
    have hstep : applyArrows (a :: rest) g =
        applyArrows rest (applyEvent (.arrow a) g) := rfl
    have hev : (applyEvent (.arrow a) g).world = g.world ∧
        (applyEvent (.arrow a) g).cols = g.cols ∧
        (applyEvent (.arrow a) g).p1.x = g.p1.x ∧
        (applyEvent (.arrow a) g).p1.y = g.p1.y ∧
        (applyEvent (.arrow a) g).p2 = g.p2 ∧
        (applyEvent (.arrow a) g).winner = g.winner := by
      by_cases hr : isRev g.p1.dir (arrowDir a)
      · simp [applyEvent, hr]
      · simp [applyEvent, hr]
    have h := ih (applyEvent (.arrow a) g)
    rw [hstep]
    exact ⟨h.1.trans hev.1, h.2.1.trans hev.2.1,
           h.2.2.1.trans hev.2.2.1, h.2.2.2.1.trans hev.2.2.2.1,
           h.2.2.2.2.1.trans hev.2.2.2.2.1, h.2.2.2.2.2.trans hev.2.2.2.2.2⟩

/-- C4: whenever a step commits (no collision), and after any sequence
of directional inputs the next step also commits, neither agent's
moved heading in the second step is the exact negation of the heading
it moved with in the first step — the human's moved heading is the
`p1.dir` field at step time, the computer's is the one `aiChoose`
writes.  The hypotheses ask only that both agents' current cells are
marked in the grid, which holds in every reachable state. -/
theorem c4_no_reverse (g : GameState) (ds : List ArrowKey)
    (o1 : g.world.getD (gidx g.cols (g.p1.x, g.p1.y)) 0 ≠ 0)
    (o2 : g.world.getD (gidx g.cols (g.p2.x, g.p2.y)) 0 ≠ 0)
    (hc1 : (stepOnce g).winner = Outcome.unset)
    (hc2 : (stepOnce (applyArrows ds (stepOnce g))).winner = Outcome.unset) :
    (applyArrows ds (stepOnce g)).p1.dir ≠ (-g.p1.dir.1, -g.p1.dir.2) ∧
    (aiApply (applyArrows ds (stepOnce g))).p2.dir ≠
      (-(aiApply g).p2.dir.1, -(aiApply g).p2.dir.2) := by
  obtain ⟨h1, h2, hne⟩ := stepOnce_commit_of_winner_unset hc1
  have hf := stepOnce_commit_fields h1 h2 hne
  have ha := applyArrows_fields ds (stepOnce g)
  have hw2 : (applyArrows ds (stepOnce g)).winner = Outcome.unset := by
    rw [ha.2.2.2.2.2]
    exact hc1
  obtain ⟨k1, k2, -⟩ := stepOnce_commit_of_winner_unset hc2
  have hcols : (applyArrows ds (stepOnce g)).cols = g.cols :=
    ha.2.1.trans (stepOnce_cols g)
  have hworld : (applyArrows ds (stepOnce g)).world = (stepOnce g).world := ha.1
  have hm1 : (stepOnce g).world.getD (gidx g.cols (g.p1.x, g.p1.y)) 0 ≠ 0 := by
    rw [stepOnce_world_mono _ o1]
    exact o1
  have hm2 : (stepOnce g).world.getD (gidx g.cols (g.p2.x, g.p2.y)) 0 ≠ 0 := by
    rw [stepOnce_world_mono _ o2]
    exact o2
  constructor
  · intro hrev
    apply k1
    have hx : (cand (aiApply (applyArrows ds (stepOnce g))).p1).1 = g.p1.x := by
      show (applyArrows ds (stepOnce g)).p1.x +
        (applyArrows ds (stepOnce g)).p1.dir.1 = g.p1.x
      rw [ha.2.2.1, hf.1, hrev]
      ring
    have hy : (cand (aiApply (applyArrows ds (stepOnce g))).p1).2 = g.p1.y := by
      show (applyArrows ds (stepOnce g)).p1.y +
        (applyArrows ds (stepOnce g)).p1.dir.2 = g.p1.y
      rw [ha.2.2.2.1, hf.2.1, hrev]
      ring
    have hpair : cand (aiApply (applyArrows ds (stepOnce g))).p1 =
        (g.p1.x, g.p1.y) := Prod.ext hx hy
    refine Or.inr ?_
    show (applyArrows ds (stepOnce g)).world.getD
      (gidx (applyArrows ds (stepOnce g)).cols
        (cand (aiApply (applyArrows ds (stepOnce g))).p1)) 0 ≠ 0
    rw [hpair, hcols, hworld]
    exact hm1
  · intro hrev
    apply k2
    have hx : (cand (aiApply (applyArrows ds (stepOnce g))).p2).1 = g.p2.x := by
      show (applyArrows ds (stepOnce g)).p2.x +
        (aiApply (applyArrows ds (stepOnce g))).p2.dir.1 = g.p2.x
      rw [hrev]
      have : (applyArrows ds (stepOnce g)).p2.x = (stepOnce g).p2.x :=
        congrArg Agent.x ha.2.2.2.2.1
      rw [this, hf.2.2.1]
      ring
    have hy : (cand (aiApply (applyArrows ds (stepOnce g))).p2).2 = g.p2.y := by
      show (applyArrows ds (stepOnce g)).p2.y +
        (aiApply (applyArrows ds (stepOnce g))).p2.dir.2 = g.p2.y
      rw [hrev]
      have : (applyArrows ds (stepOnce g)).p2.y = (stepOnce g).p2.y :=
        congrArg Agent.y ha.2.2.2.2.1
      rw [this, hf.2.2.2]
      ring
    have hpair : cand (aiApply (applyArrows ds (stepOnce g))).p2 =
        (g.p2.x, g.p2.y) := Prod.ext hx hy
    refine Or.inr ?_
    show (applyArrows ds (stepOnce g)).world.getD
      (gidx (applyArrows ds (stepOnce g)).cols
        (cand (aiApply (applyArrows ds (stepOnce g))).p2)) 0 ≠ 0
    rw [hpair, hcols, hworld]
    exact hm2

/-- C4 witness: two consecutive committed steps of the 3×3 open state
(with no inputs in between) move neither agent backwards. -/
theorem c4_no_reverse_witness :
    (applyArrows [] (stepOnce openSteps)).p1.dir ≠
      (-openSteps.p1.dir.1, -openSteps.p1.dir.2) ∧
    (aiApply (applyArrows [] (stepOnce openSteps))).p2.dir ≠
      (-(aiApply openSteps).p2.dir.1, -(aiApply openSteps).p2.dir.2) :=
  c4_no_reverse openSteps [] (by decide) (by decide) (by decide) (by decide)

/-! ### C8: bounds invariant for reachable states -/


theorem stepOnce_inv {g : GameState} (h : Inv g) : Inv (stepOnce g) := by
  obtain ⟨hc, hr, i1, i2⟩ := h
  by_cases h1 : collidesAt (aiApply g) (cand (aiApply g).p1)
  · rw [stepOnce_def, stepCore_collision (Or.inl h1)]
    exact ⟨hc, hr, i1, i2⟩
  · by_cases h2 : collidesAt (aiApply g) (cand (aiApply g).p2)
    · rw [stepOnce_def, stepCore_collision (Or.inr h2)]
      exact ⟨hc, hr, i1, i2⟩
    · by_cases he : cand (aiApply g).p1 = cand (aiApply g).p2
      · rw [stepOnce_def, stepCore_headOn h1 h2 he]
        exact ⟨hc, hr, i1, i2⟩
      · rw [stepOnce_def, stepCore_commit h1 h2 he]
        exact ⟨hc, hr, (not_collidesAt_iff.mp h1).1, (not_collidesAt_iff.mp h2).1⟩

theorem drainD_inv : ∀ (fuel : ℕ) (st : ℚ) {g : GameState}, Inv g →
    Inv (drainD fuel st g)
  | 0, _, _, h => h
  | fuel + 1, st, g, h => by
    simp only [drainD]
    split
    · exact drainD_inv fuel st (stepOnce_inv h)
    · exact h

theorem initState_inv (cols rows : ℤ) (hc : 3 ≤ cols) (hr : 1 ≤ rows) :
    Inv (initState cols rows) := by
  refine ⟨hc, hr, ?_, ?_⟩
  · show (0:ℤ) ≤ 2 ∧ (2:ℤ) < cols ∧ 0 ≤ rows / 2 ∧ rows / 2 < rows
    omega
  · show (0:ℤ) ≤ cols - 3 ∧ cols - 3 < cols ∧ 0 ≤ rows / 2 ∧ rows / 2 < rows
    omega

theorem applyEvent_inv (e : Event) {g : GameState} (h : Inv g) :
    Inv (applyEvent e g) := by
  obtain ⟨hc, hr, i1, i2⟩ := h
  cases e with
  | frame dt speed =>
    simp only [applyEvent]
    split
    · exact drainD_inv _ _ ⟨hc, hr, i1, i2⟩
    · exact ⟨hc, hr, i1, i2⟩
  | arrow a =>
    by_cases hrv : isRev g.p1.dir (arrowDir a)
    · simp only [applyEvent, if_pos hrv]
      exact ⟨hc, hr, i1, i2⟩
    · simp only [applyEvent, if_neg hrv]
      exact ⟨hc, hr, i1, i2⟩
  | space => exact ⟨hc, hr, i1, i2⟩
  | startPause => exact ⟨hc, hr, i1, i2⟩
  | reset => exact initState_inv g.cols g.rows hc hr

/-- C8: in every reachable match state — the preset initial layouts and
everything obtainable from them by frames, key input, the toggles and
reset — both agents' positions satisfy `0 ≤ x < cols` and
`0 ≤ y < rows`. -/
theorem c8_bounds_invariant (g : GameState) (h : Reachable g) :
    inb g.cols g.rows g.p1.x g.p1.y ∧ inb g.cols g.rows g.p2.x g.p2.y := by
  suffices hInv : Inv g from ⟨hInv.2.2.1, hInv.2.2.2⟩
  induction h with
  | init a => cases a <;> exact initState_inv _ _ (by decide) (by decide)
  | ev e h ih => exact applyEvent_inv e ih

/-- C8 witness: the bounds invariant at the small preset's initial
state. -/
theorem c8_bounds_invariant_witness :
    inb (initState 28 20).cols (initState 28 20).rows
      (initState 28 20).p1.x (initState 28 20).p1.y ∧
    inb (initState 28 20).cols (initState 28 20).rows
      (initState 28 20).p2.x (initState 28 20).p2.y :=
  c8_bounds_invariant _ (Reachable.init Arena.S)

/-! ### C7: AI boundedness -/


theorem aiFold_best_mem (g : GameState) :
    ∀ (l : List (ℤ × ℤ)) (acc : (ℤ × ℤ) × Option (ℤ × ℤ)),
      (aiFold g l acc).1 = acc.1 ∨ (aiFold g l acc).1 ∈ l
  | [], acc => Or.inl rfl
  | d :: rest, acc => by
    simp only [aiFold]
    by_cases hv : validCand g d
    · rw [if_pos hv]
      by_cases hb : betterScore acc.2 (adjScoreFrac g d) = true
      · rw [if_pos hb]
        rcases aiFold_best_mem g rest (d, some (adjScoreFrac g d)) with h | h
        · exact Or.inr (h ▸ List.mem_cons_self d rest)
        · exact Or.inr (List.mem_cons_of_mem d h)
      · rw [if_neg hb]
        rcases aiFold_best_mem g rest acc with h | h
        · exact Or.inl h
        · exact Or.inr (List.mem_cons_of_mem d h)
    · rw [if_neg hv]
      rcases aiFold_best_mem g rest acc with h | h
      · exact Or.inl h
      · exact Or.inr (List.mem_cons_of_mem d h)

theorem turns_mem_cardinals {cur : ℤ × ℤ} (h : cur ∈ cardinals) :
    turnR cur ∈ cardinals ∧ turnL cur ∈ cardinals := by
  fin_cases h <;> decide

theorem aiChoose_mem_cardinals {g : GameState} (h : g.p2.dir ∈ cardinals) :
    aiChoose g ∈ cardinals := by
  have hmem : ∀ d, d ∈ aiOpts g.p2.dir → d ∈ cardinals := by
    intro d hd
    simp only [aiOpts, List.mem_cons, List.not_mem_nil, or_false] at hd
    rcases hd with rfl | rfl | rfl
    · exact h
    · exact (turns_mem_cardinals h).1
    · exact (turns_mem_cardinals h).2
  rcases hfold : aiFold g (aiOpts g.p2.dir) (g.p2.dir, none) with ⟨best, sc⟩
  have hbest : best = g.p2.dir ∨ best ∈ aiOpts g.p2.dir := by
    have := aiFold_best_mem g (aiOpts g.p2.dir) (g.p2.dir, none)
    rw [hfold] at this
    exact this
  have hbc : best ∈ cardinals := by
    rcases hbest with h' | h'
    · exact h' ▸ h
    · exact hmem best h'
  cases sc with
  | some s =>
    have heq : aiChoose g = best := by
      simp only [aiChoose]
      rw [hfold]
    rw [heq]
    exact hbc
  | none =>
    rcases hscan : emergencyScan g with - | d
    · have heq : aiChoose g = best := by
        simp only [aiChoose]
        rw [hfold, hscan]
      rw [heq]
      exact hbc
    · have heq : aiChoose g = d := by
        simp only [aiChoose]
        rw [hfold, hscan]
      rw [heq]
      exact List.mem_of_find?_eq_some hscan

theorem floodGo_le (world : List ℕ) (C R sx sy : ℤ) (LIMIT : ℕ) :
    ∀ (fuel : ℕ) (st : List Bool × List (ℤ × ℤ)) (count : ℕ),
      count ≤ LIMIT → floodGo world C R sx sy LIMIT fuel st count ≤ LIMIT := by
  intro fuel
  induction fuel with
  | zero => intro st count h; exact h
  | succ fuel ih =>
    rintro ⟨seen, q⟩ count h
    cases q with
    | nil => exact h
    | cons p rest =>
      obtain ⟨x, y⟩ := p
      simp only [floodGo]
      by_cases hc : count < LIMIT
      · rw [if_pos hc]
        exact ih _ (count + 1) hc
      · rw [if_neg hc]
        exact h

theorem floodVisits_le (sx sy : ℤ) (world : List ℕ) (C R : ℤ) :
    floodVisits sx sy world C R ≤ min (C * R).toNat 600 :=
  floodGo_le world C R sx sy _ _ _ 0 (Nat.zero_le _)

/-- C7: `aiChoose` is total by construction, always returns one of the
four cardinal headings (given a cardinal current heading, which
includes the blocked case falling through the emergency scan or
keeping the current heading), and every flood-fill invocation it can
perform on the current grid visits at most `min(cols*rows, 600)`
cells. -/
theorem c7_ai_bounded (g : GameState) (h : g.p2.dir ∈ cardinals) :
    aiChoose g ∈ cardinals ∧
    ∀ sx sy : ℤ, floodVisits sx sy g.world g.cols g.rows ≤
      min (g.cols * g.rows).toNat 600 :=
  ⟨aiChoose_mem_cardinals h, fun sx sy => floodVisits_le sx sy g.world g.cols g.rows⟩

/-- C7 witness: boundedness instantiated at the 3×3 state. -/
theorem c7_ai_bounded_witness :
    aiChoose openSteps ∈ cardinals ∧
    floodVisits 1 1 openSteps.world openSteps.cols openSteps.rows ≤
      min (openSteps.cols * openSteps.rows).toNat 600 := by
  have h := c7_ai_bounded openSteps (by decide)
  exact ⟨h.1, h.2 1 1⟩

/-! ### C6: the AI picks the highest adjusted flood score -/


theorem floodScoreFrac_den_pos (sx sy : ℤ) (world : List ℕ) (C R : ℤ) :
    0 < (floodScoreFrac sx sy world C R).2 := by
  have h1 := abs_nonneg (2 * sx - C)
  have h2 := abs_nonneg (2 * sy - R)
  show (0:ℤ) < 10 + (|2 * sx - C| + |2 * sy - R|)
  linarith

theorem adjScoreFrac_den_pos (g : GameState) (d : ℤ × ℤ) :
    0 < (adjScoreFrac g d).2 := by
  have h := floodScoreFrac_den_pos (g.p2.x + d.1) (g.p2.y + d.2) g.world g.cols g.rows
  by_cases hd : d = g.p2.dir
  · simp only [adjScoreFrac, if_pos hd]
    show (0:ℤ) < 20 * (floodScoreFrac _ _ _ _ _).2
    linarith
  · simp only [adjScoreFrac, if_neg hd]
    exact h

theorem scoreVal_floodScoreFrac (sx sy : ℤ) (world : List ℕ) (C R : ℤ) :
    scoreVal (floodScoreFrac sx sy world C R) = floodScore sx sy world C R := by
  have hA : |(sx:ℚ) - (C:ℚ)/2| = |((2*sx - C : ℤ) : ℚ)| / 2 := by
    push_cast
    rw [show (sx:ℚ) - (C:ℚ)/2 = (2*(sx:ℚ) - C)/2 by ring, abs_div]
    norm_num
  have hB : |(sy:ℚ) - (R:ℚ)/2| = |((2*sy - R : ℤ) : ℚ)| / 2 := by
    push_cast
    rw [show (sy:ℚ) - (R:ℚ)/2 = (2*(sy:ℚ) - R)/2 by ring, abs_div]
    norm_num
  simp only [floodScore, scoreVal, floodScoreFrac]
  rw [hA, hB]
  have hA0 : (0:ℚ) ≤ |((2*sx - C : ℤ) : ℚ)| := abs_nonneg _
  have hB0 : (0:ℚ) ≤ |((2*sy - R : ℤ) : ℚ)| := abs_nonneg _
  have hden : ((10 + (|2*sx - C| + |2*sy - R|) : ℤ) : ℚ) ≠ 0 := by
    push_cast
    positivity
  have hden2 : (1 : ℚ) + (|((2*sx - C : ℤ) : ℚ)|/2 + |((2*sy - R : ℤ) : ℚ)|/2) * (1/5) ≠ 0 := by
    positivity
  field_simp
  ring

theorem scoreVal_adjScoreFrac (g : GameState) (d : ℤ × ℤ) :
    scoreVal (adjScoreFrac g d) = adjScore g d := by
  by_cases hd : d = g.p2.dir
  · simp only [adjScoreFrac, adjScore, if_pos hd]
    rw [← scoreVal_floodScoreFrac (g.p2.x + d.1) (g.p2.y + d.2) g.world g.cols g.rows]
    have h2 := floodScoreFrac_den_pos (g.p2.x + d.1) (g.p2.y + d.2) g.world g.cols g.rows
    have h2' : ((floodScoreFrac (g.p2.x + d.1) (g.p2.y + d.2) g.world g.cols g.rows).2 : ℚ) ≠ 0 := by
      exact_mod_cast h2.ne'
    show ((21 * (floodScoreFrac _ _ _ _ _).1 : ℤ) : ℚ) / ((20 * (floodScoreFrac _ _ _ _ _).2 : ℤ) : ℚ) = _
    unfold scoreVal
    push_cast
    field_simp
    ring
  · simp only [adjScoreFrac, adjScore, if_neg hd, mul_one]
    exact scoreVal_floodScoreFrac _ _ _ _ _

theorem betterScore_some_iff {b s : ℤ × ℤ} (hb : 0 < b.2) (hs : 0 < s.2) :
    betterScore (some b) s = true ↔ scoreVal b < scoreVal s := by
  unfold betterScore scoreVal
  rw [decide_eq_true_eq]
  rw [div_lt_div_iff₀ (by exact_mod_cast hb) (by exact_mod_cast hs)]
  constructor
  · intro h
    exact_mod_cast h
  · intro h
    exact_mod_cast h

theorem aiFold_cons (g : GameState) (d : ℤ × ℤ) (rest : List (ℤ × ℤ))
    (b : ℤ × ℤ) (os : Option (ℤ × ℤ)) :
    aiFold g (d :: rest) (b, os) =
      if validCand g d then
        (if betterScore os (adjScoreFrac g d) then
          aiFold g rest (d, some (adjScoreFrac g d))
         else aiFold g rest (b, os))
      else aiFold g rest (b, os) := rfl

theorem aiFold_from_some (g : GameState) :
    ∀ (l : List (ℤ × ℤ)) (b s : ℤ × ℤ), 0 < s.2 →
      ∃ b' s', aiFold g l (b, some s) = (b', some s') ∧ 0 < s'.2 ∧
        scoreVal s ≤ scoreVal s' ∧
        ((b' = b ∧ s' = s) ∨ (b' ∈ l ∧ validCand g b' ∧ s' = adjScoreFrac g b')) ∧
        ∀ d ∈ l, validCand g d → adjScore g d ≤ scoreVal s' := by
  intro l
  induction l with
  | nil =>
    intro b s hs
    exact ⟨b, s, rfl, hs, le_refl _, Or.inl ⟨rfl, rfl⟩, by simp⟩
  | cons d rest ih =>
    intro b s hs
    by_cases hv : validCand g d
    · have hd2 := adjScoreFrac_den_pos g d
      by_cases hbt : betterScore (some s) (adjScoreFrac g d) = true
      · obtain ⟨b', s', heq, hs', hle, hcases, hall⟩ := ih d (adjScoreFrac g d) hd2
        have hlt : scoreVal s < scoreVal (adjScoreFrac g d) :=
          (betterScore_some_iff hs hd2).mp hbt
        refine ⟨b', s', ?_, hs', le_of_lt (lt_of_lt_of_le hlt hle), ?_, ?_⟩
        · rw [aiFold_cons, if_pos hv, if_pos hbt]
          exact heq
        · rcases hcases with ⟨hb', hs'eq⟩ | ⟨hmem, hval, heq2⟩
          · refine Or.inr ⟨?_, ?_, ?_⟩
            · rw [hb']
              exact List.mem_cons_self d rest
            · rw [hb']
              exact hv
            · rw [hs'eq, hb']
          · exact Or.inr ⟨List.mem_cons_of_mem d hmem, hval, heq2⟩
        · intro d2 hd2m hvd2
          rcases List.mem_cons.mp hd2m with rfl | hm2
          · rw [← scoreVal_adjScoreFrac]
            exact hle
          · exact hall d2 hm2 hvd2
      · have hge : scoreVal (adjScoreFrac g d) ≤ scoreVal s :=
          not_lt.mp (fun hh => hbt ((betterScore_some_iff hs hd2).mpr hh))
        obtain ⟨b', s', heq, hs', hle, hcases, hall⟩ := ih b s hs
        refine ⟨b', s', ?_, hs', hle, ?_, ?_⟩
        · rw [aiFold_cons, if_pos hv, if_neg hbt]
          exact heq
        · rcases hcases with h0 | ⟨hmem, hval, heq2⟩
          · exact Or.inl h0
          · exact Or.inr ⟨List.mem_cons_of_mem d hmem, hval, heq2⟩
        · intro d2 hd2m hvd2
          rcases List.mem_cons.mp hd2m with rfl | hm2
          · rw [← scoreVal_adjScoreFrac]
            exact le_trans hge hle
          · exact hall d2 hm2 hvd2
    · obtain ⟨b', s', heq, hs', hle, hcases, hall⟩ := ih b s hs
      refine ⟨b', s', ?_, hs', hle, ?_, ?_⟩
      · rw [aiFold_cons, if_neg hv]
        exact heq
      · rcases hcases with h0 | ⟨hmem, hval, heq2⟩
        · exact Or.inl h0
        · exact Or.inr ⟨List.mem_cons_of_mem d hmem, hval, heq2⟩
      · intro d2 hd2m hvd2
        rcases List.mem_cons.mp hd2m with rfl | hm2
        · exact absurd hvd2 hv
        · exact hall d2 hm2 hvd2

theorem aiFold_from_none (g : GameState) :
    ∀ (l : List (ℤ × ℤ)) (b0 : ℤ × ℤ),
      (aiFold g l (b0, none) = (b0, none) ∧ ∀ d ∈ l, ¬ validCand g d) ∨
      (∃ b' s', aiFold g l (b0, none) = (b', some s') ∧ b' ∈ l ∧ validCand g b' ∧
        s' = adjScoreFrac g b' ∧
        ∀ d ∈ l, validCand g d → adjScore g d ≤ scoreVal s') := by
  intro l
  induction l with
  | nil =>
    intro b0
    exact Or.inl ⟨rfl, by simp⟩
  | cons d rest ih =>
    intro b0
    by_cases hv : validCand g d
    · refine Or.inr ?_
      have hd2 := adjScoreFrac_den_pos g d
      obtain ⟨b', s', heq, hs', hle, hcases, hall⟩ :=
        aiFold_from_some g rest d (adjScoreFrac g d) hd2
      refine ⟨b', s', ?_, ?_, ?_, ?_, ?_⟩
      · rw [aiFold_cons, if_pos hv]
        have hbn : betterScore none (adjScoreFrac g d) = true := rfl
        rw [if_pos hbn]
        exact heq
      · rcases hcases with ⟨hb', -⟩ | ⟨hmem, -, -⟩
        · rw [hb']
          exact List.mem_cons_self d rest
        · exact List.mem_cons_of_mem d hmem
      · rcases hcases with ⟨hb', -⟩ | ⟨-, hval, -⟩
        · rw [hb']
          exact hv
        · exact hval
      · rcases hcases with ⟨hb', hs'eq⟩ | ⟨-, -, heq2⟩
        · rw [hs'eq, hb']
        · exact heq2
      · intro d2 hd2m hvd2
        rcases List.mem_cons.mp hd2m with rfl | hm2
        · rw [← scoreVal_adjScoreFrac]
          exact hle
        · exact hall d2 hm2 hvd2
    · rcases ih b0 with ⟨heq, hnone⟩ | ⟨b', s', heq, hmem, hval, hsv, hall⟩
      · refine Or.inl ⟨?_, ?_⟩
        · rw [aiFold_cons, if_neg hv]
          exact heq
        · intro d2 hd2m
          rcases List.mem_cons.mp hd2m with rfl | hm2
          · exact hv
          · exact hnone d2 hm2
      · refine Or.inr ⟨b', s', ?_, List.mem_cons_of_mem d hmem, hval, hsv, ?_⟩
        · rw [aiFold_cons, if_neg hv]
          exact heq
        · intro d2 hd2m hvd2
          rcases List.mem_cons.mp hd2m with rfl | hm2
          · exact absurd hvd2 hv
          · exact hall d2 hm2 hvd2

/-- C6: `aiChoose` evaluates the three candidates straight /
right-relative / left-relative; a candidate is scored only when its
resulting cell is in bounds and unoccupied, its score being the bounded
breadth-first flood-fill visit count scaled by the centre bias
`1/(1 + manhattan_distance_from_centre * 0.2)` (`floodScore`), with the
continue-straight candidate further multiplied by `1.05` (`adjScore`);
whenever at least one candidate is scorable, the returned heading is a
scorable candidate of maximal adjusted score. -/
theorem c6_ai_argmax (g : GameState)
    (h : ∃ d ∈ aiOpts g.p2.dir, validCand g d) :
    aiChoose g ∈ aiOpts g.p2.dir ∧ validCand g (aiChoose g) ∧
    ∀ d ∈ aiOpts g.p2.dir, validCand g d →
      adjScore g d ≤ adjScore g (aiChoose g) := by
  rcases aiFold_from_none g (aiOpts g.p2.dir) g.p2.dir with
    ⟨heq, hnone⟩ | ⟨b', s', heq, hmem, hval, hsv, hall⟩
  · obtain ⟨d, hd, hvd⟩ := h
    exact absurd hvd (hnone d hd)
  · have hch : aiChoose g = b' := by
      simp only [aiChoose]
      rw [heq]
    rw [hch]
    refine ⟨hmem, hval, ?_⟩
    intro d hd hvd
    have hx := hall d hd hvd
    rwa [hsv, scoreVal_adjScoreFrac] at hx

/-- C6 witness: at the 3×3 state the straight candidate is viable and
the chosen heading scores at least as well as the right-relative
turn. -/
theorem c6_ai_argmax_witness :
    validCand openSteps (aiChoose openSteps) ∧
    adjScore openSteps (turnR openSteps.p2.dir) ≤
      adjScore openSteps (aiChoose openSteps) := by
  have h := c6_ai_argmax openSteps ⟨(1, 0), by decide, by decide⟩
  exact ⟨h.2.1, h.2.2 (turnR openSteps.p2.dir) (by decide) (by decide)⟩

end Tron
